import Mathlib

/-!
Verification of the faculty-crawler pipeline (`crawler.py`, `browser_scraper.py`).

The Python code is shallowly embedded: records (Python dicts mapping string
keys to string- or string-list-values) become association lists over a `Val`
type; Python string operations (`lower`, `strip`, `in`, `startswith`,
`split()`) are re-implemented over character lists so that every definition
evaluates by kernel reduction.  The out-of-scope collaborators (the HTTP
transport and the BeautifulSoup DOM library) are modelled as an explicit
environment of oracle functions; every piece of control flow of the Python
code itself (fetch-failure checks, dispatch, grouping, scoring, merging,
column layout) is translated directly from the source.
-/

/-- Python `s.lower()` (ASCII case folding, as used by the crawler's
keyword comparisons). -/
def pyLower (s : String) : String :=
  String.mk (s.data.map Char.toLower)

/-- Characters remaining after Python `s.strip()`. -/
def stripChars (l : List Char) : List Char :=
  ((l.dropWhile Char.isWhitespace).reverse.dropWhile Char.isWhitespace).reverse

/-- Python `s.strip()`: remove leading and trailing whitespace. -/
def pyStrip (s : String) : String :=
  String.mk (stripChars s.data)

/-- Occurrence of `sub` as a contiguous sublist of `s` (Python `sub in s`). -/
def subOccurs (s sub : List Char) : Bool :=
  match s with
  | [] => sub.isEmpty
  | _ :: t => sub.isPrefixOf s || subOccurs t sub

/-- Python `sub in s` on strings. -/
def pyContains (s sub : String) : Bool :=
  subOccurs s.data sub.data

/-- Python `s.startswith(p)`. -/
def pyStartsWith (s p : String) : Bool :=
  p.data.isPrefixOf s.data

/-- Python `len(s)` (number of characters). -/
def pyLen (s : String) : Nat :=
  s.data.length

/-- Splitting a character list on whitespace runs, keeping only the
non-empty segments (Python `s.split()` with no argument). -/
def wsSplit (l : List Char) : List (List Char) :=
  ((l.splitOnP Char.isWhitespace).filter (fun w => ¬ w.isEmpty))

/-- Python `s.split()`: split on whitespace, dropping empty fields. -/
def pySplitWs (s : String) : List String :=
  (wsSplit s.data).map String.mk

/-- Python `sep.join(items)`. -/
def pyJoin (sep : String) : List String → String
  | [] => ""
  | [x] => x
  | x :: y :: rest => x ++ sep ++ pyJoin sep (y :: rest)

/-! ## Keyword tables (module-level constants of `crawler.py`) -/

/-- `INCLUDE_TITLES` from `crawler.py`. -/
def INCLUDE_TITLES : List String :=
  ["Professor", "Assistant Professor", "Associate Professor",
   "Department Chair", "Department Head"]

/-- `EXCLUDE_KEYWORDS` from `crawler.py`. -/
def EXCLUDE_KEYWORDS : List String :=
  ["Lecturer", "Adjunct", "Instructor", "Staff", "Emeritus", "Visiting",
   "By Courtesy", "Courtesy", "Professor of the Practice"]

/-- `INVALID_NAMES` from `crawler.py`. -/
def INVALID_NAMES : List String :=
  ["courtesy appointments", "emeritus", "emerita", "lecturer", "lecturers",
   "staff", "faculty in memoriam", "in memoriam", "visiting faculty",
   "adjunct", "by courtesy", "graduate students", "postdocs",
   "research scientists", "administrative", "incoming", "faculty",
   "people", "all", "view"]

/-- The `suspicious` substring list inside `is_valid_name`. -/
def SUSPICIOUS_PATTERNS : List String :=
  ["http", "www", ".com", ".edu", "click", "more", "view all"]

/-- The `skip_patterns` list inside `BrowserScraper._is_valid_name`. -/
def SKIP_PATTERNS : List String :=
  ["faculty", "professor", "department", "university",
   "contact", "email", "phone", "research", "home",
   "about", "news", "events", "more", "view", "read",
   "learn", "click", "here", "page", "site"]

/-! ## Name/Title validators -/

/-- `FacultyCrawler.is_valid_professor_title` from `crawler.py`:
reject empty titles, veto on any excluded keyword (case-insensitive
substring), otherwise accept iff some included title occurs. -/
def is_valid_professor_title (title : String) : Bool :=
  if title = "" then false
  else
    let title_lower := pyLower title
    if EXCLUDE_KEYWORDS.any (fun e => pyContains title_lower (pyLower e)) then false
    else INCLUDE_TITLES.any (fun i => pyContains title_lower (pyLower i))

/-- `FacultyCrawler.is_valid_name` from `crawler.py`: reject the empty
string, strings shorter than 3 characters after lower/strip, denylisted
phrases (equality or phrase-plus-space prefix), overlong single tokens,
and suspicious link-like substrings. -/
def is_valid_name (name : String) : Bool :=
  if name = "" then false
  else if pyLen (pyStrip (pyLower name)) < 3 then false
  else if INVALID_NAMES.any
      (fun inv => pyStrip (pyLower name) = inv
        || pyStartsWith (pyStrip (pyLower name)) (inv ++ " ")) then false
  else if (pySplitWs (pyStrip (pyLower name))).length = 1
      && pyLen ((pySplitWs (pyStrip (pyLower name))).headD "") > 15 then false
  else if SUSPICIOUS_PATTERNS.any
      (fun susp => pyContains (pyStrip (pyLower name)) susp) then false
  else true

/-- `BrowserScraper._is_valid_name` from `browser_scraper.py`: length must
be within 4..60, no skip pattern occurs, at least two whitespace-separated
parts, and at least one alphabetic character. -/
def is_valid_name_browser (name : String) : Bool :=
  if name = "" ∨ pyLen name < 4 ∨ pyLen name > 60 then false
  else if SKIP_PATTERNS.any (fun p => pyContains (pyLower name) p) then false
  else if (pySplitWs name).length < 2 then false
  else if ¬ name.data.any Char.isAlpha then false
  else true

/-- Claim C2: `is_valid_professor_title` rejects the empty title, rejects
any title containing an excluded keyword (case-insensitively) even when an
include keyword is also present, and otherwise accepts exactly the titles
containing some include keyword; the three specified examples hold. -/
theorem C2_title_filter (title : String) :
    (title = "" → is_valid_professor_title title = false)
    ∧ (EXCLUDE_KEYWORDS.any (fun e => pyContains (pyLower title) (pyLower e)) = true →
        is_valid_professor_title title = false)
    ∧ (title ≠ "" →
        EXCLUDE_KEYWORDS.any (fun e => pyContains (pyLower title) (pyLower e)) = false →
        (is_valid_professor_title title = true ↔
          INCLUDE_TITLES.any (fun i => pyContains (pyLower title) (pyLower i)) = true))
    ∧ is_valid_professor_title "Adjunct Professor" = false
    ∧ is_valid_professor_title "Associate Professor" = true
    ∧ is_valid_professor_title "" = false := by
  refine ⟨?_, ?_, ?_, by decide, by decide, by decide⟩
  · intro h; simp [is_valid_professor_title, h]
  · intro h
    unfold is_valid_professor_title
    by_cases he : title = "" <;> simp [he, h]
  · intro hne hexc
    unfold is_valid_professor_title
    simp [hne, hexc]

/-- Witness for C2 at the concrete title "Adjunct Professor": the excluded
keyword veto fires even though "Professor" (an include keyword) occurs. -/
theorem C2_title_filter_witness :
    is_valid_professor_title "Adjunct Professor" = false :=
  (C2_title_filter "Adjunct Professor").2.1 (by decide)

/-- A 70-character two-word string accepted by `is_valid_name`: the
crawler's validator has no upper length bound. -/
def longNameSeventy : String :=
  "aaaaaaaaaaaaaaaaaaaaaaaaaaaaaaaaaaa bbbbbbbbbbbbbbbbbbbbbbbbbbbbbbbbbb"

/-- Claim C6, counterexample: `is_valid_name` in `crawler.py` accepts a
70-character name, so it does not reject strings longer than roughly 60
characters as the claim asserts. -/
theorem C6_name_filter_counterexample :
    is_valid_name longNameSeventy = true ∧ pyLen longNameSeventy = 70 := by
  constructor
  · decide
  · decide

/-- Claim C6 as amended: the crawler's `is_valid_name` rejects the empty
string, strings shorter than 3 characters after lowercasing/stripping,
denylisted phrases (equality or phrase-plus-space prefix) and link-like
substrings, but imposes no upper length bound (only single tokens longer
than 15 characters are rejected); the 60-character cap exists only in the
browser-scraper variant `_is_valid_name`, which rejects lengths outside
4..60; the three specified examples hold. -/
theorem C6_name_filter_amended (name : String) :
    (name = "" → is_valid_name name = false)
    ∧ (pyLen (pyStrip (pyLower name)) < 3 → is_valid_name name = false)
    ∧ (INVALID_NAMES.any
        (fun inv => pyStrip (pyLower name) = inv
          || pyStartsWith (pyStrip (pyLower name)) (inv ++ " ")) = true →
        is_valid_name name = false)
    ∧ (SUSPICIOUS_PATTERNS.any
        (fun susp => pyContains (pyStrip (pyLower name)) susp) = true →
        is_valid_name name = false)
    ∧ ((pySplitWs (pyStrip (pyLower name))).length = 1 →
        pyLen ((pySplitWs (pyStrip (pyLower name))).headD "") > 15 →
        is_valid_name name = false)
    ∧ (is_valid_name_browser name = true → 4 ≤ pyLen name ∧ pyLen name ≤ 60)
    ∧ is_valid_name "Jane Smith" = true
    ∧ is_valid_name "J" = false
    ∧ is_valid_name "View All Faculty" = false
    ∧ is_valid_name_browser "Jane Smith" = true
    ∧ is_valid_name_browser "J" = false
    ∧ is_valid_name_browser "View All Faculty" = false := by
  refine ⟨?_, ?_, ?_, ?_, ?_, ?_,
    by decide, by decide, by decide, by decide, by decide, by decide⟩
  · intro h; simp [is_valid_name, h]
  · intro h
    unfold is_valid_name
    split
    · rfl
    · simp only [h, if_true]
  · intro h
    unfold is_valid_name
    split
    · rfl
    · split
      · rfl
      · simp only [h, if_true]
  · intro h
    unfold is_valid_name
    split
    · rfl
    · split
      · rfl
      · split
        · rfl
        · split
          · rfl
          · simp only [h, if_true]
  · intro h1 h2
    unfold is_valid_name
    split
    · rfl
    · split
      · rfl
      · split
        · rfl
        · simp only [h1, h2]
          simp
  · intro h
    unfold is_valid_name_browser at h
    split at h
    · exact absurd h (by simp)
    · rename_i hcond
      push_neg at hcond
      exact ⟨hcond.2.1, hcond.2.2⟩

/-- Witness for C6 (amended) at "J": after lowering and stripping, "j" has
length 1 < 3, so the validator rejects it. -/
theorem C6_name_filter_amended_witness :
    is_valid_name "J" = false :=
  (C6_name_filter_amended "J").2.1 (by decide)

/-! ## Record model

A Python faculty dict becomes an association list from string keys to
`Val` (string- or string-list-valued).  Insertion order is significant,
as it is for Python dicts. -/

/-- A Python dict value in this pipeline: a string or a list of strings. -/
inductive Val where
  | str (s : String)
  | lst (l : List String)
deriving DecidableEq

/-- A faculty record: an insertion-ordered association list (a Python dict;
genuine dicts have pairwise-distinct keys). -/
abbrev Record := List (String × Val)

/-- Python truthiness of a value: non-empty string / non-empty list. -/
def Val.truthy : Val → Bool
  | .str s => s ≠ ""
  | .lst l => ¬ l.isEmpty

/-- Python `len(v)`. -/
def Val.pyLength : Val → Nat
  | .str s => pyLen s
  | .lst l => l.length

/-- Python `d.get(k)`: the value at the first binding of `k`, if any. -/
def getVal (r : Record) (k : String) : Option Val :=
  (r.find? (fun kv => kv.1 = k)).map (fun kv => kv.2)

/-- Python `d.get(k, '')` for string-valued fields (the pipeline stores
only strings under the keys read this way). -/
def getStr (r : Record) (k : String) : String :=
  match getVal r k with
  | some (.str s) => s
  | _ => ""

/-- Truthiness of `d.get(k)` (`None`, `''` and `[]` are all falsy). -/
def truthyAt (r : Record) (k : String) : Bool :=
  match getVal r k with
  | some v => v.truthy
  | none => false

/-- Python `len(d.get(k, []))`. -/
def lenAt (r : Record) (k : String) : Nat :=
  match getVal r k with
  | some v => v.pyLength
  | none => 0

/-- Python `d[k] = v`: replace the first binding of `k` in place, else
append a new binding at the end. -/
def setVal (r : Record) (k : String) (v : Val) : Record :=
  match r with
  | [] => [(k, v)]
  | kv :: rest => if kv.1 = k then (k, v) :: rest else kv :: setVal rest k v

/-- Deduplication keeping the first occurrence of each element, in order
(Python dict-key insertion order; also models `list(set(...))` where only
the set of elements matters). -/
def firstDedup : List String → List String
  | [] => []
  | x :: xs => x :: (firstDedup xs).filter (fun y => y ≠ x)

/-! ## `FacultyCrawler.deduplicate` -/

/-- The grouping key: `faculty.get('name','').lower().strip()`. -/
def normName (r : Record) : String :=
  pyStrip (pyLower (getStr r "name"))

/-- The keys of `name_to_entries`, in insertion order: the distinct
non-empty normalized names, ordered by first occurrence. -/
def groupKeys (l : List Record) : List String :=
  firstDedup ((l.map normName).filter (fun n => n ≠ ""))

/-- The entry list of `name_to_entries[n]`: all records whose normalized
name is `n`, in input order. -/
def groupOf (l : List Record) (n : String) : List Record :=
  l.filter (fun r => normName r = n)

/-- `score_entry` from `FacultyCrawler.deduplicate`: +10 for a truthy
email, +5 for a truthy phone, +3 for truthy publications, +1 per research
interest, +2 if the email contains a primary-institution domain. -/
def score_entry (e : Record) : Nat :=
  (if truthyAt e "email" then 10 else 0)
  + (if truthyAt e "phone" then 5 else 0)
  + (if truthyAt e "top_publications" then 3 else 0)
  + (if truthyAt e "research_interests" then lenAt e "research_interests" else 0)
  + (if pyContains (getStr e "email") "stanford.edu"
      || pyContains (getStr e "email") "mit.edu" then 2 else 0)

/-- One step of a stable descending insertion sort by `score_entry`:
insert `e` before the first element whose score is at most `e`'s.  A
stable sort is uniquely determined by the key, so this agrees with
Python's `sorted(entries, key=score_entry, reverse=True)`. -/
def insertByScore (e : Record) : List Record → List Record
  | [] => [e]
  | x :: xs =>
    if score_entry x ≤ score_entry e then e :: x :: xs
    else x :: insertByScore e xs

/-- Stable descending sort by `score_entry`
(`sorted(entries, key=score_entry, reverse=True)`). -/
def sortByScore : List Record → List Record
  | [] => []
  | x :: xs => insertByScore x (sortByScore xs)

/-- The source URLs one group member contributes to `all_sources`: its
truthy `department_source` string followed by its truthy
`department_sources` list (a truthy string under that key would be
iterated character-wise by `list.extend`; the pipeline only ever stores
lists there). -/
def entrySources (e : Record) : List String :=
  (if getStr e "department_source" ≠ "" then [getStr e "department_source"] else [])
  ++ (match getVal e "department_sources" with
      | some (.lst l) => l
      | _ => [])

/-- `all_sources`: the concatenation, over the group in input order, of
each member's sources. -/
def collectSources (entries : List Record) : List String :=
  entries.foldl (fun acc e => acc ++ entrySources e) []

/-- One iteration of the gap-filling inner loop of `deduplicate`: skip the
two source keys, and copy `value` under `key` only when `value` is truthy
and `merged.get(key)` is falsy.  (The `elif isinstance(value, list)`
branch of the source is subsumed by the first condition.) -/
def fillStep (m : Record) (kv : String × Val) : Record :=
  if kv.1 = "department_source" ∨ kv.1 = "department_sources" then m
  else if kv.2.truthy ∧ ¬ (truthyAt m kv.1 = true) then setVal m kv.1 kv.2
  else m

/-- The gap-filling loop over one lower-scored entry's items. -/
def fillFrom (m : Record) (entry : Record) : Record :=
  entry.foldl fillStep m

/-- The gap-filling loop over all lower-scored entries, in descending
score order. -/
def fillAll (m : Record) (entries : List Record) : Record :=
  entries.foldl fillFrom m

/-- The merge of a multi-member name group in `deduplicate`: the
highest-scoring entry is copied, its `department_sources` is set to the
de-duplicated union of every member's sources, and the remaining entries
fill its empty fields in descending score order. -/
def mergeGroup (entries : List Record) : Record :=
  fillAll
    (setVal ((sortByScore entries).headD []) "department_sources"
      (.lst (firstDedup (collectSources entries))))
    ((sortByScore entries).drop 1)

/-- `FacultyCrawler.deduplicate`: group records by non-empty normalized
name (in first-occurrence order), pass singleton groups through unchanged,
and merge multi-member groups. -/
def deduplicate (l : List Record) : List Record :=
  (groupKeys l).map (fun n =>
    if (groupOf l n).length = 1 then (groupOf l n).headD []
    else mergeGroup (groupOf l n))

/-- The first truthy value stored under `k` by any entry of `es`, in
order: the value the gap-filling loop would copy into an empty field. -/
def getTruthyVal (e : Record) (k : String) : Option Val :=
  match getVal e k with
  | some v => if v.truthy then some v else none
  | none => none

/-- First truthy value for key `k` over a list of entries. -/
def firstTruthy (es : List Record) (k : String) : Option Val :=
  es.findSome? (fun e => getTruthyVal e k)

/-! ## Basic lemmas about the record operations -/

theorem getVal_setVal_self (r : Record) (k : String) (v : Val) :
    getVal (setVal r k v) k = some v := by
  induction r with
  | nil => simp [setVal, getVal]
  | cons kv rest ih =>
    by_cases h : kv.1 = k
    · simp [setVal, h, getVal, List.find?]
    · simp only [setVal, h, if_false]
      simpa [getVal, List.find?, h] using ih

theorem getVal_setVal_ne (r : Record) (k k' : String) (v : Val) (h : k' ≠ k) :
    getVal (setVal r k v) k' = getVal r k' := by
  induction r with
  | nil => simp [setVal, getVal, List.find?, Ne.symm h]
  | cons kv rest ih =>
    by_cases hk : kv.1 = k
    · subst hk
      simp [setVal, getVal, List.find?, Ne.symm h]
    · simp only [setVal, hk, if_false]
      by_cases hk' : kv.1 = k'
      · simp [getVal, List.find?, hk']
      · simp only [getVal, List.find?, hk'] at ih ⊢
        simpa [hk'] using ih

theorem truthyAt_setVal_ne (r : Record) (k k' : String) (v : Val) (h : k' ≠ k) :
    truthyAt (setVal r k v) k' = truthyAt r k' := by
  simp [truthyAt, getVal_setVal_ne r k k' v h]

theorem mem_firstDedup (l : List String) (a : String) :
    a ∈ firstDedup l ↔ a ∈ l := by
  induction l with
  | nil => simp [firstDedup]
  | cons x xs ih =>
    simp only [firstDedup, List.mem_cons, List.mem_filter]
    by_cases hax : a = x
    · simp [hax]
    · simp [hax, ih]

theorem nodup_firstDedup (l : List String) : (firstDedup l).Nodup := by
  induction l with
  | nil => simp [firstDedup]
  | cons x xs ih =>
    simp only [firstDedup]
    refine List.Nodup.cons ?_ (List.Nodup.filter _ ih)
    intro hx
    have := (List.mem_filter.mp hx).2
    simp at this

theorem firstDedup_eq_self_of_nodup (l : List String) (h : l.Nodup) :
    firstDedup l = l := by
  induction l with
  | nil => rfl
  | cons x xs ih =>
    simp only [firstDedup]
    have hx : x ∉ xs := (List.nodup_cons.mp h).1
    have hxs : xs.Nodup := (List.nodup_cons.mp h).2
    rw [ih hxs, List.filter_eq_self.mpr]
    intro b hb
    simp only [ne_eq, decide_eq_true_eq]
    intro hbx
    exact hx (hbx ▸ hb)

/-! ## Lemmas about the stable descending sort -/

theorem mem_insertByScore (e a : Record) (l : List Record) :
    a ∈ insertByScore e l ↔ a = e ∨ a ∈ l := by
  induction l with
  | nil => simp [insertByScore]
  | cons x xs ih =>
    simp only [insertByScore]
    by_cases h : score_entry x ≤ score_entry e
    · simp [h]
    · simp only [h, if_false, List.mem_cons, ih]
      tauto

theorem mem_sortByScore (l : List Record) (a : Record) :
    a ∈ sortByScore l ↔ a ∈ l := by
  induction l with
  | nil => simp [sortByScore]
  | cons x xs ih =>
    simp [sortByScore, mem_insertByScore, ih]

theorem length_insertByScore (e : Record) (l : List Record) :
    (insertByScore e l).length = l.length + 1 := by
  induction l with
  | nil => rfl
  | cons x xs ih =>
    simp only [insertByScore]
    by_cases h : score_entry x ≤ score_entry e
    · simp [h]
    · simp [h, ih]

theorem length_sortByScore (l : List Record) :
    (sortByScore l).length = l.length := by
  induction l with
  | nil => rfl
  | cons x xs ih => simp [sortByScore, length_insertByScore, ih]

/-- The elements of a descending-sorted list are bounded by any upper
bound of the inserted element and the list. -/
theorem pairwise_insertByScore (e : Record) (l : List Record)
    (h : l.Pairwise (fun a b => score_entry b ≤ score_entry a)) :
    (insertByScore e l).Pairwise (fun a b => score_entry b ≤ score_entry a) := by
  induction l with
  | nil => simp [insertByScore]
  | cons x xs ih =>
    simp only [insertByScore]
    rcases List.pairwise_cons.mp h with ⟨hx, hxs⟩
    by_cases hc : score_entry x ≤ score_entry e
    · rw [if_pos hc]
      refine List.pairwise_cons.mpr ⟨?_, h⟩
      intro b hb
      rcases List.mem_cons.mp hb with hb | hb
      · exact hb ▸ hc
      · exact le_trans (hx b hb) hc
    · rw [if_neg hc]
      refine List.pairwise_cons.mpr ⟨?_, ih hxs⟩
      intro b hb
      rcases (mem_insertByScore e b xs).mp hb with hb | hb
      · exact hb ▸ le_of_not_le hc
      · exact hx b hb

theorem pairwise_sortByScore (l : List Record) :
    (sortByScore l).Pairwise (fun a b => score_entry b ≤ score_entry a) := by
  induction l with
  | nil => simp [sortByScore]
  | cons x xs ih => exact pairwise_insertByScore x (sortByScore xs) ih

/-- The head of the descending sort scores at least as high as every
element of the list. -/
theorem head_sortByScore_max (l : List Record) (e : Record) (he : e ∈ l) :
    score_entry e ≤ score_entry ((sortByScore l).headD []) := by
  have hmem : e ∈ sortByScore l := (mem_sortByScore l e).mpr he
  cases hs : sortByScore l with
  | nil => rw [hs] at hmem; simp at hmem
  | cons h t =>
    rw [hs] at hmem
    rcases List.mem_cons.mp hmem with rfl | hmem
    · simp
    · have hp := pairwise_sortByScore l
      rw [hs] at hp
      exact List.rel_of_pairwise_cons hp hmem

/-! ## Lemmas about the gap-filling loop -/

theorem truthyAt_congr (m m' : Record) (k : String)
    (h : getVal m k = getVal m' k) : truthyAt m k = truthyAt m' k := by
  simp [truthyAt, h]

theorem getVal_fillStep_src (m : Record) (kv : String × Val) (k : String)
    (hk : k = "department_source" ∨ k = "department_sources") :
    getVal (fillStep m kv) k = getVal m k := by
  unfold fillStep
  split
  · rfl
  · split
    · rename_i hns _
      have : kv.1 ≠ k := by
        intro hek
        exact hns (hek ▸ hk)
      exact getVal_setVal_ne m kv.1 k kv.2 (fun h => this h.symm)
    · rfl

theorem getVal_fillStep_ne (m : Record) (kv : String × Val) (k : String)
    (h : kv.1 ≠ k) : getVal (fillStep m kv) k = getVal m k := by
  unfold fillStep
  split
  · rfl
  · split
    · exact getVal_setVal_ne m kv.1 k kv.2 (fun hh => h hh.symm)
    · rfl

theorem getVal_fillStep_of_truthy (m : Record) (kv : String × Val) (k : String)
    (h : truthyAt m k = true) : getVal (fillStep m kv) k = getVal m k := by
  by_cases hkk : kv.1 = k
  · unfold fillStep
    split
    · rfl
    · split
      · rename_i hcond
        exact absurd (hkk ▸ h) hcond.2
      · rfl
  · exact getVal_fillStep_ne m kv k hkk

theorem getVal_fillFrom_of_truthy (m : Record) (entry : Record) (k : String)
    (h : truthyAt m k = true) : getVal (fillFrom m entry) k = getVal m k := by
  induction entry generalizing m with
  | nil => rfl
  | cons kv rest ih =>
    have h1 : getVal (fillStep m kv) k = getVal m k :=
      getVal_fillStep_of_truthy m kv k h
    have h2 : truthyAt (fillStep m kv) k = true :=
      (truthyAt_congr _ _ _ h1).trans h
    calc getVal (fillFrom m (kv :: rest)) k
        = getVal (fillFrom (fillStep m kv) rest) k := rfl
      _ = getVal (fillStep m kv) k := ih (fillStep m kv) h2
      _ = getVal m k := h1

theorem getVal_fillFrom_src (m : Record) (entry : Record) (k : String)
    (hk : k = "department_source" ∨ k = "department_sources") :
    getVal (fillFrom m entry) k = getVal m k := by
  induction entry generalizing m with
  | nil => rfl
  | cons kv rest ih =>
    calc getVal (fillFrom m (kv :: rest)) k
        = getVal (fillFrom (fillStep m kv) rest) k := rfl
      _ = getVal (fillStep m kv) k := ih (fillStep m kv)
      _ = getVal m k := getVal_fillStep_src m kv k hk

theorem getVal_fillFrom_no_key (m : Record) (entry : Record) (k : String)
    (h : ∀ kv ∈ entry, kv.1 ≠ k) : getVal (fillFrom m entry) k = getVal m k := by
  induction entry generalizing m with
  | nil => rfl
  | cons kv rest ih =>
    calc getVal (fillFrom m (kv :: rest)) k
        = getVal (fillFrom (fillStep m kv) rest) k := rfl
      _ = getVal (fillStep m kv) k :=
          ih (fillStep m kv) (fun kv' h' => h kv' (List.mem_cons_of_mem kv h'))
      _ = getVal m k := getVal_fillStep_ne m kv k (h kv (List.mem_cons_self kv rest))

theorem getTruthyVal_eq_some (e : Record) (k : String) (v : Val)
    (h : getTruthyVal e k = some v) : getVal e k = some v ∧ v.truthy = true := by
  unfold getTruthyVal at h
  split at h
  · rename_i w hw
    split at h
    · rename_i hwt
      cases h
      exact ⟨hw, hwt⟩
    · cases h
  · cases h

theorem getVal_fillFrom_of_untruthy (m : Record) (entry : Record) (k : String)
    (hk1 : k ≠ "department_source") (hk2 : k ≠ "department_sources")
    (hnd : (entry.map Prod.fst).Nodup) (hm : truthyAt m k = false) :
    getVal (fillFrom m entry) k =
      match getTruthyVal entry k with
      | some v => some v
      | none => getVal m k := by
  induction entry generalizing m with
  | nil => simp [fillFrom, getTruthyVal, getVal, List.find?]
  | cons kv rest ih =>
    have hnd' : (rest.map Prod.fst).Nodup := (List.nodup_cons.mp hnd).2
    by_cases hkk : kv.1 = k
    · have hrest : ∀ kv' ∈ rest, kv'.1 ≠ k := by
        intro kv' h' he
        exact (List.nodup_cons.mp hnd).1 (hkk ▸ he ▸ List.mem_map_of_mem Prod.fst h')
      have hget : getVal (kv :: rest) k = some kv.2 := by
        simp [getVal, List.find?, hkk]
      by_cases htr : kv.2.truthy = true
      · have hstep : fillStep m kv = setVal m k kv.2 := by
          unfold fillStep
          rw [if_neg, if_pos]
          · exact hkk ▸ rfl
          · exact ⟨htr, by rw [hkk, hm]; simp⟩
          · rw [hkk]
            push_neg
            exact ⟨hk1, hk2⟩
        have : getVal (fillFrom (fillStep m kv) rest) k = some kv.2 := by
          rw [hstep, getVal_fillFrom_no_key _ _ _ hrest, getVal_setVal_self]
        calc getVal (fillFrom m (kv :: rest)) k
            = getVal (fillFrom (fillStep m kv) rest) k := rfl
          _ = some kv.2 := this
          _ = _ := by simp [getTruthyVal, hget, htr]
      · have hstep : fillStep m kv = m := by
          unfold fillStep
          rw [if_neg, if_neg]
          · rintro ⟨h1, -⟩
            exact htr h1
          · rw [hkk]
            push_neg
            exact ⟨hk1, hk2⟩
        calc getVal (fillFrom m (kv :: rest)) k
            = getVal (fillFrom (fillStep m kv) rest) k := rfl
          _ = getVal m k := by rw [hstep, getVal_fillFrom_no_key _ _ _ hrest]
          _ = _ := by simp [getTruthyVal, hget, htr]
    · have h1 : getVal (fillStep m kv) k = getVal m k := getVal_fillStep_ne m kv k hkk
      have h2 : truthyAt (fillStep m kv) k = false :=
        (truthyAt_congr _ _ _ h1).trans hm
      have hgt : getTruthyVal (kv :: rest) k = getTruthyVal rest k := by
        simp [getTruthyVal, getVal, List.find?, hkk]
      calc getVal (fillFrom m (kv :: rest)) k
          = getVal (fillFrom (fillStep m kv) rest) k := rfl
        _ = _ := by rw [ih (fillStep m kv) hnd' h2, hgt, h1]

theorem getVal_fillAll_of_truthy (m : Record) (es : List Record) (k : String)
    (h : truthyAt m k = true) : getVal (fillAll m es) k = getVal m k := by
  induction es generalizing m with
  | nil => rfl
  | cons e rest ih =>
    have h1 : getVal (fillFrom m e) k = getVal m k := getVal_fillFrom_of_truthy m e k h
    have h2 : truthyAt (fillFrom m e) k = true := (truthyAt_congr _ _ _ h1).trans h
    calc getVal (fillAll m (e :: rest)) k
        = getVal (fillAll (fillFrom m e) rest) k := rfl
      _ = getVal (fillFrom m e) k := ih (fillFrom m e) h2
      _ = getVal m k := h1

theorem getVal_fillAll_src (m : Record) (es : List Record) (k : String)
    (hk : k = "department_source" ∨ k = "department_sources") :
    getVal (fillAll m es) k = getVal m k := by
  induction es generalizing m with
  | nil => rfl
  | cons e rest ih =>
    calc getVal (fillAll m (e :: rest)) k
        = getVal (fillAll (fillFrom m e) rest) k := rfl
      _ = getVal (fillFrom m e) k := ih (fillFrom m e)
      _ = getVal m k := getVal_fillFrom_src m e k hk

theorem getVal_fillAll_of_untruthy (m : Record) (es : List Record) (k : String)
    (hk1 : k ≠ "department_source") (hk2 : k ≠ "department_sources")
    (hnd : ∀ e ∈ es, (e.map Prod.fst).Nodup) (hm : truthyAt m k = false) :
    getVal (fillAll m es) k =
      match firstTruthy es k with
      | some v => some v
      | none => getVal m k := by
  induction es generalizing m with
  | nil => simp [fillAll, firstTruthy]
  | cons e rest ih =>
    have hnde : (e.map Prod.fst).Nodup := hnd e (List.mem_cons_self e rest)
    have hndr : ∀ e' ∈ rest, (e'.map Prod.fst).Nodup :=
      fun e' h' => hnd e' (List.mem_cons_of_mem e h')
    have hfill := getVal_fillFrom_of_untruthy m e k hk1 hk2 hnde hm
    have hfs : firstTruthy (e :: rest) k =
        match getTruthyVal e k with
        | some v => some v
        | none => firstTruthy rest k := by
      simp only [firstTruthy, List.findSome?]
      cases getTruthyVal e k <;> rfl
    cases hgt : getTruthyVal e k with
    | some v =>
      have hv := getTruthyVal_eq_some e k v hgt
      have h1 : getVal (fillFrom m e) k = some v := by rw [hfill, hgt]
      have h2 : truthyAt (fillFrom m e) k = true := by
        simp [truthyAt, h1, hv.2]
      calc getVal (fillAll m (e :: rest)) k
          = getVal (fillAll (fillFrom m e) rest) k := rfl
        _ = getVal (fillFrom m e) k := getVal_fillAll_of_truthy _ _ _ h2
        _ = some v := h1
        _ = _ := by rw [hfs, hgt]
    | none =>
      have h1 : getVal (fillFrom m e) k = getVal m k := by rw [hfill, hgt]
      have h2 : truthyAt (fillFrom m e) k = false := (truthyAt_congr _ _ _ h1).trans hm
      calc getVal (fillAll m (e :: rest)) k
          = getVal (fillAll (fillFrom m e) rest) k := rfl
        _ = _ := by rw [ih (fillFrom m e) hndr h2, hfs, hgt, h1]

/-! ## Structure of `deduplicate`'s output -/

/-- The output record `deduplicate` produces for the name group `n`. -/
def groupOut (l : List Record) (n : String) : Record :=
  if (groupOf l n).length = 1 then (groupOf l n).headD []
  else mergeGroup (groupOf l n)

theorem deduplicate_eq_map (l : List Record) :
    deduplicate l = (groupKeys l).map (groupOut l) := rfl

theorem mem_groupKeys (l : List Record) (n : String) :
    n ∈ groupKeys l ↔ (n ≠ "" ∧ ∃ r ∈ l, normName r = n) := by
  unfold groupKeys
  rw [mem_firstDedup, List.mem_filter]
  simp only [List.mem_map, decide_eq_true_eq]
  tauto

theorem normName_of_mem_groupOf (l : List Record) (n : String) (r : Record)
    (h : r ∈ groupOf l n) : normName r = n := by
  have := (List.mem_filter.mp h).2
  simpa using this

theorem mem_of_mem_groupOf (l : List Record) (n : String) (r : Record)
    (h : r ∈ groupOf l n) : r ∈ l := (List.mem_filter.mp h).1

theorem mem_groupOf_self (l : List Record) (r : Record) (h : r ∈ l) :
    r ∈ groupOf l (normName r) := by
  exact List.mem_filter.mpr ⟨h, by simp⟩

theorem groupOf_ne_nil (l : List Record) (n : String) (h : n ∈ groupKeys l) :
    groupOf l n ≠ [] := by
  rcases ((mem_groupKeys l n).mp h).2 with ⟨r, hr, hn⟩
  intro hnil
  have : r ∈ groupOf l n := hn ▸ mem_groupOf_self l r hr
  rw [hnil] at this
  simp at this

theorem headD_mem_of_ne_nil (entries : List Record) (h : entries ≠ []) :
    (sortByScore entries).headD [] ∈ entries := by
  cases hs : sortByScore entries with
  | nil =>
    have := length_sortByScore entries
    rw [hs] at this
    exact absurd (List.length_eq_zero.mp this.symm) h
  | cons x t =>
    have : x ∈ sortByScore entries := hs ▸ List.mem_cons_self x t
    simpa using (mem_sortByScore entries x).mp this

theorem getStr_congr (m m' : Record) (k : String)
    (h : getVal m k = getVal m' k) : getStr m k = getStr m' k := by
  simp [getStr, h]

theorem truthy_name_of_normName_ne (r : Record) (h : normName r ≠ "") :
    truthyAt r "name" = true := by
  unfold normName at h
  unfold truthyAt
  cases hg : getVal r "name" with
  | none =>
    exfalso
    apply h
    simp [getStr, hg]
    rfl
  | some v =>
    cases v with
    | str s =>
      by_cases hs : s = ""
      · exfalso
        apply h
        simp [getStr, hg, hs]
        rfl
      · simp [Val.truthy, hs]
    | lst ll =>
      exfalso
      apply h
      simp [getStr, hg]
      rfl

theorem getVal_mergeGroup_name (entries : List Record) (n : String) (hn : n ≠ "")
    (hne : entries ≠ []) (hall : ∀ r ∈ entries, normName r = n) :
    getVal (mergeGroup entries) "name"
      = getVal ((sortByScore entries).headD []) "name" := by
  have hbase : (sortByScore entries).headD [] ∈ entries := headD_mem_of_ne_nil entries hne
  have hbn : normName ((sortByScore entries).headD []) = n := hall _ hbase
  have htr : truthyAt ((sortByScore entries).headD []) "name" = true :=
    truthy_name_of_normName_ne _ (hbn ▸ hn)
  unfold mergeGroup
  have hset : getVal (setVal ((sortByScore entries).headD []) "department_sources"
      (.lst (firstDedup (collectSources entries)))) "name"
      = getVal ((sortByScore entries).headD []) "name" :=
    getVal_setVal_ne _ _ _ _ (by decide)
  rw [getVal_fillAll_of_truthy _ _ _ ((truthyAt_congr _ _ _ hset).trans htr), hset]

theorem normName_mergeGroup (entries : List Record) (n : String) (hn : n ≠ "")
    (hne : entries ≠ []) (hall : ∀ r ∈ entries, normName r = n) :
    normName (mergeGroup entries) = n := by
  have hbase : (sortByScore entries).headD [] ∈ entries := headD_mem_of_ne_nil entries hne
  have := getStr_congr _ _ "name" (getVal_mergeGroup_name entries n hn hne hall)
  unfold normName
  rw [this]
  exact hall _ hbase

theorem normName_groupOut (l : List Record) (n : String) (h : n ∈ groupKeys l) :
    normName (groupOut l n) = n := by
  have hn : n ≠ "" := ((mem_groupKeys l n).mp h).1
  have hne := groupOf_ne_nil l n h
  unfold groupOut
  split
  · rename_i h1
    rcases List.length_eq_one.mp h1 with ⟨r, hr⟩
    rw [hr]
    exact normName_of_mem_groupOf l n r (hr ▸ List.mem_cons_self r [])
  · exact normName_mergeGroup _ n hn hne (normName_of_mem_groupOf l n)

theorem listMapId {α : Type} (l : List α) (f : α → α) (h : ∀ a ∈ l, f a = a) :
    l.map f = l := by
  induction l with
  | nil => rfl
  | cons x xs ih =>
    simp only [List.map_cons, h x (List.mem_cons_self x xs),
      ih (fun a ha => h a (List.mem_cons_of_mem x ha))]

theorem map_normName_deduplicate (l : List Record) :
    (deduplicate l).map normName = groupKeys l := by
  rw [deduplicate_eq_map, List.map_map]
  exact listMapId _ _ (fun n hn => normName_groupOut l n hn)

/-- Claim C9: a record whose name lowercases and strips to the empty
string (in particular one with no name key) never appears in
`deduplicate`'s output. -/
theorem C9_empty_name_dropped (l : List Record) (r : Record)
    (h : normName r = "") : r ∉ deduplicate l := by
  intro hmem
  have h1 : normName r ∈ (deduplicate l).map normName := List.mem_map_of_mem _ hmem
  rw [map_normName_deduplicate] at h1
  exact ((mem_groupKeys l (normName r)).mp h1).1 h

/-- Witness for C9: the record `[("name", " ")]` (whitespace-only name) is
dropped by `deduplicate`, even from a list containing only it. -/
theorem C9_empty_name_dropped_witness :
    [("name", Val.str " ")] ∉ deduplicate [[("name", Val.str " ")]] :=
  C9_empty_name_dropped _ _ (by decide)

theorem groupOf_eq_single (l : List Record) (r : Record) (hr : r ∈ l)
    (huniq : (groupOf l (normName r)).length = 1) :
    groupOf l (normName r) = [r] := by
  rcases List.length_eq_one.mp huniq with ⟨a, ha⟩
  have hmem : r ∈ groupOf l (normName r) := mem_groupOf_self l r hr
  rw [ha] at hmem
  rcases List.mem_singleton.mp hmem with rfl
  exact ha

/-- Claim C10: a record whose non-empty normalized name is unique in the
input is returned by `deduplicate` exactly as given (as the unique output
record bearing that name), with no fields added, changed or removed; the
`department_sources` union field is only ever written on records produced
by merging a multi-member group. -/
theorem C10_singleton_passthrough (l : List Record) (r : Record) (hr : r ∈ l)
    (hn : normName r ≠ "") (huniq : (groupOf l (normName r)).length = 1) :
    r ∈ deduplicate l
    ∧ (∀ r' ∈ deduplicate l, normName r' = normName r → r' = r) := by
  have hkey : normName r ∈ groupKeys l :=
    (mem_groupKeys l (normName r)).mpr ⟨hn, r, hr, rfl⟩
  have hout : groupOut l (normName r) = r := by
    unfold groupOut
    rw [if_pos huniq, groupOf_eq_single l r hr huniq]
    rfl
  constructor
  · rw [deduplicate_eq_map]
    exact hout ▸ List.mem_map_of_mem (groupOut l) hkey
  · intro r' hr' hname
    rw [deduplicate_eq_map] at hr'
    rcases List.mem_map.mp hr' with ⟨n', hn', rfl⟩
    have : n' = normName r := by
      rw [← normName_groupOut l n' hn']
      exact hname
    rw [this, hout]

/-- Witness for C10 at a two-record input: the uniquely-named record
`[("name","Solo"),("email","")]` passes through `deduplicate` unchanged
alongside an unrelated record. -/
theorem C10_singleton_passthrough_witness :
    [("name", Val.str "Solo"), ("email", Val.str "")] ∈
      deduplicate [[("name", Val.str "Solo"), ("email", Val.str "")],
                    [("name", Val.str "Other One")]] :=
  (C10_singleton_passthrough _ _ (by decide) (by decide) (by decide)).1

theorem groupOf_of_nodup_names (out : List Record) (r : Record)
    (hnodup : (out.map normName).Nodup) (hr : r ∈ out) :
    groupOf out (normName r) = [r] := by
  induction out with
  | nil => simp at hr
  | cons x xs ih =>
    rcases List.nodup_cons.mp hnodup with ⟨hx, hxs⟩
    rcases List.mem_cons.mp hr with rfl | hr
    · have hfil : xs.filter (fun r' => normName r' = normName r) = [] := by
        apply List.filter_eq_nil_iff.mpr
        intro a ha
        simp only [decide_eq_true_eq]
        intro he
        exact hx (he ▸ List.mem_map_of_mem normName ha)
      unfold groupOf
      simp [List.filter, hfil]
    · have hne : normName x ≠ normName r := by
        intro he
        exact hx (he ▸ List.mem_map_of_mem normName hr)
      unfold groupOf at ih ⊢
      rw [List.filter_cons_of_neg (by simpa using hne)]
      exact ih hxs hr

theorem deduplicate_of_distinct (out : List Record)
    (hnodup : (out.map normName).Nodup) (hne : ∀ r ∈ out, normName r ≠ "") :
    deduplicate out = out := by
  have hkeys : groupKeys out = out.map normName := by
    unfold groupKeys
    rw [List.filter_eq_self.mpr, firstDedup_eq_self_of_nodup _ hnodup]
    intro n hn
    rcases List.mem_map.mp hn with ⟨r, hr, rfl⟩
    simpa using hne r hr
  rw [deduplicate_eq_map, hkeys, List.map_map]
  apply listMapId
  intro r hr
  simp only [Function.comp_apply]
  have hsingle := groupOf_of_nodup_names out r hnodup hr
  unfold groupOut
  rw [hsingle]
  simp

/-- Claim C3: `deduplicate` is idempotent — running it on its own output
returns that output unchanged (every name group in the output is a
singleton, so no further merges occur). -/
theorem C3_deduplicate_idempotent (l : List Record) :
    deduplicate (deduplicate l) = deduplicate l := by
  apply deduplicate_of_distinct
  · rw [map_normName_deduplicate]
    exact nodup_firstDedup _
  · intro r hr
    have h1 : normName r ∈ (deduplicate l).map normName := List.mem_map_of_mem _ hr
    rw [map_normName_deduplicate] at h1
    exact ((mem_groupKeys l (normName r)).mp h1).1

/-- Claim C1: for a multi-member name group, the merged record is built
from the highest-scoring member (the base): it appears in `deduplicate`'s
output; the base's score dominates the group; every non-source field of
the base that is truthy is kept verbatim, and every falsy one receives the
first truthy value among the remaining members in descending score order
(staying as it was if none exists); and the merged `department_sources` is
exactly the set of source URLs carried by all group members. -/
theorem C1_merge_fills_gaps (l : List Record) (n : String)
    (hmem : n ∈ groupKeys l) (hlen : 2 ≤ (groupOf l n).length)
    (hnd : ∀ r ∈ l, (r.map Prod.fst).Nodup) :
    mergeGroup (groupOf l n) ∈ deduplicate l
    ∧ (∀ e ∈ groupOf l n,
        score_entry e ≤ score_entry ((sortByScore (groupOf l n)).headD []))
    ∧ (∀ k, k ≠ "department_source" → k ≠ "department_sources" →
        (truthyAt ((sortByScore (groupOf l n)).headD []) k = true →
          getVal (mergeGroup (groupOf l n)) k
            = getVal ((sortByScore (groupOf l n)).headD []) k)
        ∧ (truthyAt ((sortByScore (groupOf l n)).headD []) k = false →
          getVal (mergeGroup (groupOf l n)) k =
            match firstTruthy ((sortByScore (groupOf l n)).drop 1) k with
            | some v => some v
            | none => getVal ((sortByScore (groupOf l n)).headD []) k))
    ∧ getVal (mergeGroup (groupOf l n)) "department_sources"
        = some (.lst (firstDedup (collectSources (groupOf l n))))
    ∧ (∀ s, s ∈ firstDedup (collectSources (groupOf l n))
        ↔ s ∈ collectSources (groupOf l n)) := by
  have hlen1 : ¬ (groupOf l n).length = 1 := by omega
  refine ⟨?_, ?_, ?_, ?_, fun s => mem_firstDedup _ s⟩
  · rw [deduplicate_eq_map]
    have : groupOut l n = mergeGroup (groupOf l n) := by
      unfold groupOut
      rw [if_neg hlen1]
    exact this ▸ List.mem_map_of_mem (groupOut l) hmem
  · intro e he
    exact head_sortByScore_max (groupOf l n) e he
  · intro k hk1 hk2
    have hset : getVal (setVal ((sortByScore (groupOf l n)).headD [])
        "department_sources" (.lst (firstDedup (collectSources (groupOf l n))))) k
        = getVal ((sortByScore (groupOf l n)).headD []) k :=
      getVal_setVal_ne _ _ _ _ hk2
    constructor
    · intro htr
      unfold mergeGroup
      rw [getVal_fillAll_of_truthy _ _ _ ((truthyAt_congr _ _ _ hset).trans htr), hset]
    · intro htr
      unfold mergeGroup
      have hndrest : ∀ e ∈ (sortByScore (groupOf l n)).drop 1,
          (e.map Prod.fst).Nodup := by
        intro e he
        have h1 : e ∈ sortByScore (groupOf l n) := List.mem_of_mem_drop he
        exact hnd e (mem_of_mem_groupOf l n e ((mem_sortByScore _ e).mp h1))
      rw [getVal_fillAll_of_untruthy _ _ _ hk1 hk2 hndrest
        ((truthyAt_congr _ _ _ hset).trans htr), hset]
  · unfold mergeGroup
    rw [getVal_fillAll_src _ _ _ (Or.inr rfl), getVal_setVal_self]

/-- The spec's merge example, two same-named records: A has an empty email
and no publications, B carries both and a different source page. -/
def exRecordA : Record :=
  [("name", Val.str "X"), ("email", Val.str ""),
   ("top_publications", Val.lst []), ("department_source", Val.str "u1")]

/-- Second record of the merge example. -/
def exRecordB : Record :=
  [("name", Val.str "X"), ("email", Val.str "a@b.edu"),
   ("top_publications", Val.lst ["P1"]), ("department_source", Val.str "u2")]

/-- Witness for C1 at the spec's example pair: the merged record of the
"x" group is an output of `deduplicate`. -/
theorem C1_merge_fills_gaps_witness :
    mergeGroup (groupOf [exRecordA, exRecordB] "x") ∈
      deduplicate [exRecordA, exRecordB] :=
  (C1_merge_fills_gaps [exRecordA, exRecordB] "x"
    (by decide) (by decide) (by decide)).1

/-! ## Page Fetcher and Stage-2 environment

The HTTP transport and the DOM library are out-of-scope collaborators;
they are modelled as an environment of oracle functions.  Everything the
crawler itself does around them — the fetch-failure checks, the
exception-to-`None` conversion of `polite_request`, the per-site
dispatching, the in-extractor name deduplication and the merge of
enrichment data into a record — is translated from the source. -/

/-- An HTTP response: status code, final URL (after redirects, read by the
Stanford enricher), and an abstract body identity consumed by the DOM
oracles. -/
structure Response where
  status : Nat
  url : String
  body : Nat
deriving DecidableEq

/-- The outcome of one transport attempt: a raised exception (network
error or timeout) or a response object. -/
inductive FetchOutcome where
  | exn
  | success (r : Response)
deriving DecidableEq

/-- `FacultyCrawler.polite_request`: any raised exception is caught and
converted to `None`; `raise_for_status` turns a 4xx/5xx response into a
raised (hence caught) exception as well. -/
def polite_request (outcome : FetchOutcome) : Option Response :=
  match outcome with
  | .exn => none
  | .success r => if 400 ≤ r.status then none else some r

/-- The oracle environment: the transport, and the DOM-level extraction
heuristics of `crawler.py` (which operate on parsed HTML and are
abstracted here), one per call site. -/
structure Env where
  transport : String → FetchOutcome
  extract_email : Response → String
  extract_phone : Response → String
  extract_lab_website : Response → String → String
  extract_google_scholar : Response → String
  extract_publications : Response → List String
  extract_assistant_email : Response → String
  extract_research_interests : Response → String → List String
  find_stanford_profiles_link : Response → Option String
  parse_stanford_department : Response → String → List Record
  parse_doerr_page : Response → String → List Record
  doerr_has_next : Response → Bool
  parse_mit_dmse : Response → List Record
  parse_harvard_chemistry : Response → List Record
  parse_harvard_seas : Response → List Record
  parse_yale_chemistry : Response → List Record
  parse_princeton_chemistry : Response → List Record
  parse_uchicago_chemistry : Response → List Record
  parse_northwestern_department : Response → String → List Record
  parse_berkeley_department : Response → String → List Record
  parse_caltech_department : Response → String → List Record

/-- A fetch through `polite_request`. -/
def fetchR (env : Env) (url : String) : Option Response :=
  polite_request (env.transport url)

/-- `TARGET_URLS` from `crawler.py`. -/
def TARGET_URLS : List (String × String) :=
  [("stanford_cheme", "https://cheme.stanford.edu/people/faculty"),
   ("stanford_mse", "https://mse.stanford.edu/people/faculty"),
   ("stanford_doerr", "https://sustainability.stanford.edu/our-community/faculty-0"),
   ("mit_dmse", "https://dmse.mit.edu/people/faculty/"),
   ("harvard_chemistry", "https://chemistry.harvard.edu/people"),
   ("harvard_seas", "https://seas.harvard.edu/people?role=Faculty"),
   ("yale_chemistry", "https://chem.yale.edu/people/faculty"),
   ("princeton_chemistry", "https://chemistry.princeton.edu/faculty-research/"),
   ("uchicago_chemistry", "https://chemistry.uchicago.edu/research/physical"),
   ("northwestern_chemistry", "https://chemistry.northwestern.edu/people/faculty/index.html"),
   ("northwestern_mse", "https://www.mccormick.northwestern.edu/materials-science/people/faculty/"),
   ("berkeley_chemistry", "https://chemistry.berkeley.edu/people/faculty"),
   ("berkeley_cbe", "https://chemistry.berkeley.edu/people/cbe-faculty"),
   ("caltech_cce", "https://www.cce.caltech.edu/faculty"),
   ("caltech_materials", "https://www.cms.caltech.edu/people")]

/-- Lookup in `TARGET_URLS`. -/
def targetUrl (k : String) : String :=
  ((TARGET_URLS.find? (fun p => p.1 = k)).map Prod.snd).getD ""

/-! ### In-extractor deduplication loops (three variants in the source) -/

/-- The duplicate-removal loop of `scrape_stanford_department`: key is
`f['name'].lower()`, no validity check. -/
def dedupByLowerName (seen : List String) : List Record → List Record
  | [] => []
  | f :: fs =>
    if pyLower (getStr f "name") ∈ seen then dedupByLowerName seen fs
    else f :: dedupByLowerName (pyLower (getStr f "name") :: seen) fs

/-- The duplicate-removal loop of the Doerr/Harvard/Yale/Princeton/
UChicago/Northwestern/Berkeley/Caltech extractors: key is
`f['name'].lower().strip()` and the entry must pass `is_valid_name`. -/
def dedupByNameValid (seen : List String) : List Record → List Record
  | [] => []
  | f :: fs =>
    if pyStrip (pyLower (getStr f "name")) ∉ seen
        ∧ is_valid_name (getStr f "name") = true then
      f :: dedupByNameValid (pyStrip (pyLower (getStr f "name")) :: seen) fs
    else dedupByNameValid seen fs

/-- The duplicate-removal loop of `scrape_mit_dmse`: key is
`f['name'].lower().strip()` and must be longer than 2 characters. -/
def dedupByNameLen (seen : List String) : List Record → List Record
  | [] => []
  | f :: fs =>
    if pyStrip (pyLower (getStr f "name")) ∉ seen
        ∧ pyLen (pyStrip (pyLower (getStr f "name"))) > 2 then
      f :: dedupByNameLen (pyStrip (pyLower (getStr f "name")) :: seen) fs
    else dedupByNameLen seen fs

/-! ### Per-site extractor shells -/

/-- `FacultyCrawler.scrape_stanford_department`: fetch, give up with `[]`
on failure, else parse the listing DOM and deduplicate by lowered name. -/
def scrape_stanford_department (env : Env) (url : String) : List Record :=
  match fetchR env url with
  | none => []
  | some soup => dedupByLowerName [] (env.parse_stanford_department soup url)

/-- The page URL of the Doerr pagination loop. -/
def doerr_page_url (page : Nat) : String :=
  if page > 0 then targetUrl "stanford_doerr" ++ "?page=" ++ toString page
  else targetUrl "stanford_doerr"

/-- The `while True` pagination loop of `scrape_stanford_doerr`: stop on a
failed fetch, on an empty first page, on a missing next link, or past page
10.  The loop runs at most 11 iterations (pages 0..10), so fuel 11 is
exact. -/
def doerrLoop (env : Env) : Nat → Nat → List Record → List Record
  | 0, _, acc => acc
  | fuel + 1, page, acc =>
    match fetchR env (doerr_page_url page) with
    | none => acc
    | some soup =>
      if page = 0 ∧ env.parse_doerr_page soup (targetUrl "stanford_doerr") = [] then acc
      else if env.doerr_has_next soup then
        if page + 1 > 10 then acc ++ env.parse_doerr_page soup (targetUrl "stanford_doerr")
        else doerrLoop env fuel (page + 1)
          (acc ++ env.parse_doerr_page soup (targetUrl "stanford_doerr"))
      else acc ++ env.parse_doerr_page soup (targetUrl "stanford_doerr")

/-- `FacultyCrawler.scrape_stanford_doerr`. -/
def scrape_stanford_doerr (env : Env) : List Record :=
  dedupByNameValid [] (doerrLoop env 11 0 [])

/-- `FacultyCrawler.scrape_mit_dmse`. -/
def scrape_mit_dmse (env : Env) : List Record :=
  match fetchR env (targetUrl "mit_dmse") with
  | none => []
  | some soup => dedupByNameLen [] (env.parse_mit_dmse soup)

/-- `FacultyCrawler.scrape_harvard_chemistry`. -/
def scrape_harvard_chemistry (env : Env) : List Record :=
  match fetchR env (targetUrl "harvard_chemistry") with
  | none => []
  | some soup => dedupByNameValid [] (env.parse_harvard_chemistry soup)

/-- `FacultyCrawler.scrape_harvard_seas`. -/
def scrape_harvard_seas (env : Env) : List Record :=
  match fetchR env (targetUrl "harvard_seas") with
  | none => []
  | some soup => dedupByNameValid [] (env.parse_harvard_seas soup)

/-- `FacultyCrawler.scrape_yale_chemistry`. -/
def scrape_yale_chemistry (env : Env) : List Record :=
  match fetchR env (targetUrl "yale_chemistry") with
  | none => []
  | some soup => dedupByNameValid [] (env.parse_yale_chemistry soup)

/-- `FacultyCrawler.scrape_princeton_chemistry`. -/
def scrape_princeton_chemistry (env : Env) : List Record :=
  match fetchR env (targetUrl "princeton_chemistry") with
  | none => []
  | some soup => dedupByNameValid [] (env.parse_princeton_chemistry soup)

/-- `FacultyCrawler.scrape_uchicago_chemistry`. -/
def scrape_uchicago_chemistry (env : Env) : List Record :=
  match fetchR env (targetUrl "uchicago_chemistry") with
  | none => []
  | some soup => dedupByNameValid [] (env.parse_uchicago_chemistry soup)

/-- `FacultyCrawler.scrape_northwestern_department`. -/
def scrape_northwestern_department (env : Env) (url : String) : List Record :=
  match fetchR env url with
  | none => []
  | some soup => dedupByNameValid [] (env.parse_northwestern_department soup url)

/-- `FacultyCrawler.scrape_berkeley_department`. -/
def scrape_berkeley_department (env : Env) (url : String) : List Record :=
  match fetchR env url with
  | none => []
  | some soup => dedupByNameValid [] (env.parse_berkeley_department soup url)

/-- `FacultyCrawler.scrape_caltech_department`. -/
def scrape_caltech_department (env : Env) (url : String) : List Record :=
  match fetchR env url with
  | none => []
  | some soup => dedupByNameValid [] (env.parse_caltech_department soup url)

/-! ### Profile enrichers -/

/-- The `profile_data` dict every enricher initializes: all seven
enrichment fields empty. -/
def emptyProfile : Record :=
  [("email", Val.str ""), ("phone", Val.str ""), ("lab_website", Val.str ""),
   ("google_scholar", Val.str ""), ("top_publications", Val.lst []),
   ("assistant_email", Val.str ""), ("research_interests", Val.lst [])]

/-- `FacultyCrawler.scrape_generic_profile`: the all-empty dict on a
failed fetch, else the seven extraction heuristics applied to the page. -/
def scrape_generic_profile (env : Env) (profile_url : String) : Record :=
  match fetchR env profile_url with
  | none => emptyProfile
  | some soup =>
    [("email", Val.str (env.extract_email soup)),
     ("phone", Val.str (env.extract_phone soup)),
     ("lab_website", Val.str (env.extract_lab_website soup profile_url)),
     ("google_scholar", Val.str (env.extract_google_scholar soup)),
     ("top_publications", Val.lst (env.extract_publications soup)),
     ("assistant_email", Val.str (env.extract_assistant_email soup)),
     ("research_interests", Val.lst (env.extract_research_interests soup profile_url))]

/-- `FacultyCrawler.scrape_mit_profile`: like the generic enricher but
`assistant_email` is never filled. -/
def scrape_mit_profile (env : Env) (profile_url : String) : Record :=
  match fetchR env profile_url with
  | none => emptyProfile
  | some soup =>
    [("email", Val.str (env.extract_email soup)),
     ("phone", Val.str (env.extract_phone soup)),
     ("lab_website", Val.str (env.extract_lab_website soup profile_url)),
     ("google_scholar", Val.str (env.extract_google_scholar soup)),
     ("top_publications", Val.lst (env.extract_publications soup)),
     ("assistant_email", Val.str ""),
     ("research_interests", Val.lst (env.extract_research_interests soup profile_url))]

/-- The canonical-page indirection of `scrape_stanford_profile`: if the
fetched page links to `profiles.stanford.edu` and is not already there,
re-fetch the canonical page and extract from it (keeping the original
page when the second fetch fails). -/
def stanfordSoupAndUrl (env : Env) (resp : Response) : Response × String :=
  match env.find_stanford_profiles_link resp with
  | some link =>
    if ¬ pyContains resp.url "profiles.stanford.edu" then
      match fetchR env link with
      | some resp2 => (resp2, resp2.url)
      | none => (resp, resp.url)
    else (resp, resp.url)
  | none => (resp, resp.url)

/-- `FacultyCrawler.scrape_stanford_profile`. -/
def scrape_stanford_profile (env : Env) (profile_url : String) : Record :=
  match fetchR env profile_url with
  | none => emptyProfile
  | some resp =>
    [("email", Val.str (env.extract_email (stanfordSoupAndUrl env resp).1)),
     ("phone", Val.str (env.extract_phone (stanfordSoupAndUrl env resp).1)),
     ("lab_website", Val.str (env.extract_lab_website
        (stanfordSoupAndUrl env resp).1 (stanfordSoupAndUrl env resp).2)),
     ("google_scholar", Val.str (env.extract_google_scholar
        (stanfordSoupAndUrl env resp).1)),
     ("top_publications", Val.lst (env.extract_publications
        (stanfordSoupAndUrl env resp).1)),
     ("assistant_email", Val.str (env.extract_assistant_email
        (stanfordSoupAndUrl env resp).1)),
     ("research_interests", Val.lst (env.extract_research_interests
        (stanfordSoupAndUrl env resp).1 (stanfordSoupAndUrl env resp).2))]

/-! ### Stage 2 -/

/-- Python `{**a, **b}`: the keys of `a` in order with values overridden
by `b`, then `b`'s new keys appended in order. -/
def dictMerge (a b : Record) : Record :=
  b.foldl (fun m kv => setVal m kv.1 kv.2) a

/-- The university-domain list of `run_stage2`'s generic-dispatch arm. -/
def GENERIC_DOMAINS : List String :=
  ["harvard.edu", "yale.edu", "princeton.edu", "uchicago.edu",
   "northwestern.edu", "berkeley.edu", "caltech.edu"]

/-- One iteration of the `run_stage2` loop: an entry without a profile URL
is appended untouched; otherwise the enricher is dispatched on URL
substrings (Stanford, MIT, the seven-domain generic arm, else an empty
enrichment dict) and merged over the manifest entry. -/
def stage2Entry (env : Env) (faculty : Record) : Record :=
  if getStr faculty "profile_url" = "" then faculty
  else
    dictMerge faculty
      (if pyContains (getStr faculty "profile_url") "stanford.edu" then
        scrape_stanford_profile env (getStr faculty "profile_url")
      else if pyContains (getStr faculty "profile_url") "mit.edu" then
        scrape_mit_profile env (getStr faculty "profile_url")
      else if GENERIC_DOMAINS.any
          (fun u => pyContains (getStr faculty "profile_url") u) then
        scrape_generic_profile env (getStr faculty "profile_url")
      else [])

/-- `FacultyCrawler.run_stage2`: iterate the frozen manifest in order,
appending exactly one (possibly unenriched) record per entry to the
accumulated `faculty_data`. -/
def run_stage2 (env : Env) : List Record → List Record → List Record
  | [], data => data
  | f :: rest, data => run_stage2 env rest (data ++ [stage2Entry env f])

/-- Claim C4: Stage 2 never drops a record — the output collection is the
input collection followed by exactly one record per manifest entry, so it
grows by exactly the manifest's length. -/
theorem C4_stage2_no_drop (env : Env) (manifest data : List Record) :
    run_stage2 env manifest data = data ++ manifest.map (stage2Entry env)
    ∧ (run_stage2 env manifest data).length = data.length + manifest.length := by
  have h : ∀ m d, run_stage2 env m d = d ++ m.map (stage2Entry env) := by
    intro m
    induction m with
    | nil => intro d; simp [run_stage2]
    | cons f rest ih =>
      intro d
      simp [run_stage2, ih]
  refine ⟨h manifest data, ?_⟩
  rw [h manifest data]
  simp

/-- An environment whose transport always succeeds and whose email oracle
returns a fixed address; all other oracles return empty results. -/
def envOk : Env :=
  { transport := fun _ => FetchOutcome.success ⟨200, "u", 0⟩
    extract_email := fun _ => "oracle@example.org"
    extract_phone := fun _ => ""
    extract_lab_website := fun _ _ => ""
    extract_google_scholar := fun _ => ""
    extract_publications := fun _ => []
    extract_assistant_email := fun _ => ""
    extract_research_interests := fun _ _ => []
    find_stanford_profiles_link := fun _ => none
    parse_stanford_department := fun _ _ => []
    parse_doerr_page := fun _ _ => []
    doerr_has_next := fun _ => false
    parse_mit_dmse := fun _ => []
    parse_harvard_chemistry := fun _ => []
    parse_harvard_seas := fun _ => []
    parse_yale_chemistry := fun _ => []
    parse_princeton_chemistry := fun _ => []
    parse_uchicago_chemistry := fun _ => []
    parse_northwestern_department := fun _ _ => []
    parse_berkeley_department := fun _ _ => []
    parse_caltech_department := fun _ _ => [] }

/-- A manifest entry whose profile URL is non-empty but matches none of
the known institution domains. -/
def recUnknownDomain : Record :=
  [("name", Val.str "Pat Quill"),
   ("profile_url", Val.str "https://example.org/prof")]

/-- Claim C5, counterexample: for a non-empty profile URL matching no
known institution domain, Stage 2 does NOT use the generic enricher — the
record passes through unenriched (no `email` key is added), although the
generic enricher at that URL would have produced an enrichment. -/
theorem C5_dispatch_counterexample :
    getStr recUnknownDomain "profile_url" ≠ ""
    ∧ pyContains (getStr recUnknownDomain "profile_url") "stanford.edu" = false
    ∧ pyContains (getStr recUnknownDomain "profile_url") "mit.edu" = false
    ∧ GENERIC_DOMAINS.any
        (fun u => pyContains (getStr recUnknownDomain "profile_url") u) = false
    ∧ stage2Entry envOk recUnknownDomain = recUnknownDomain
    ∧ getVal (stage2Entry envOk recUnknownDomain) "email" = none
    ∧ getVal (dictMerge recUnknownDomain
        (scrape_generic_profile envOk (getStr recUnknownDomain "profile_url")))
        "email" = some (Val.str "oracle@example.org") := by
  refine ⟨by decide, by decide, by decide, by decide, by decide, by decide, by decide⟩

/-- Claim C5 as amended: Stage 2 dispatches on URL substrings — the
Stanford enricher for URLs containing `stanford.edu`, the MIT enricher for
`mit.edu`, the generic enricher for the seven listed university domains —
while entries with an empty profile URL AND entries whose non-empty URL
matches none of those domains both pass through unenriched. -/
theorem C5_dispatch_amended (env : Env) (faculty : Record) :
    (getStr faculty "profile_url" = "" → stage2Entry env faculty = faculty)
    ∧ (getStr faculty "profile_url" ≠ "" →
        pyContains (getStr faculty "profile_url") "stanford.edu" = true →
        stage2Entry env faculty
          = dictMerge faculty
              (scrape_stanford_profile env (getStr faculty "profile_url")))
    ∧ (getStr faculty "profile_url" ≠ "" →
        pyContains (getStr faculty "profile_url") "stanford.edu" = false →
        pyContains (getStr faculty "profile_url") "mit.edu" = true →
        stage2Entry env faculty
          = dictMerge faculty
              (scrape_mit_profile env (getStr faculty "profile_url")))
    ∧ (getStr faculty "profile_url" ≠ "" →
        pyContains (getStr faculty "profile_url") "stanford.edu" = false →
        pyContains (getStr faculty "profile_url") "mit.edu" = false →
        GENERIC_DOMAINS.any
          (fun u => pyContains (getStr faculty "profile_url") u) = true →
        stage2Entry env faculty
          = dictMerge faculty
              (scrape_generic_profile env (getStr faculty "profile_url")))
    ∧ (getStr faculty "profile_url" ≠ "" →
        pyContains (getStr faculty "profile_url") "stanford.edu" = false →
        pyContains (getStr faculty "profile_url") "mit.edu" = false →
        GENERIC_DOMAINS.any
          (fun u => pyContains (getStr faculty "profile_url") u) = false →
        stage2Entry env faculty = faculty) := by
  refine ⟨?_, ?_, ?_, ?_, ?_⟩
  · intro h
    simp [stage2Entry, h]
  · intro h hs
    simp [stage2Entry, h, hs]
  · intro h hs hm
    simp [stage2Entry, h, hs, hm]
  · intro h hs hm hg
    simp [stage2Entry, h, hs, hm, hg]
  · intro h hs hm hg
    simp only [stage2Entry, h, if_false, hs, hm, hg]
    rfl

/-- A manifest entry with a Stanford profile URL. -/
def recStanford : Record :=
  [("name", Val.str "A B"),
   ("profile_url", Val.str "https://mse.stanford.edu/people/a-b")]

/-- Witness for C5 (amended): the Stanford arm fires on a concrete
Stanford-domain entry. -/
theorem C5_dispatch_amended_witness :
    stage2Entry envOk recStanford
      = dictMerge recStanford
          (scrape_stanford_profile envOk (getStr recStanford "profile_url")) :=
  (C5_dispatch_amended envOk recStanford).2.1 (by decide) (by decide)

/-- Claim C7: transport failures are non-fatal and localized — a raised
exception or a 4xx/5xx status makes `polite_request` return `None` rather
than propagate, and every per-site extractor and every profile enricher
given a failed fetch returns its empty result (an empty record list, or
the all-empty enrichment dict), so the pipeline continues. -/
theorem C7_transport_failures_nonfatal (env : Env) (url : String) (r : Response) :
    polite_request FetchOutcome.exn = none
    ∧ (400 ≤ r.status → polite_request (FetchOutcome.success r) = none)
    ∧ (fetchR env url = none → scrape_generic_profile env url = emptyProfile)
    ∧ (fetchR env url = none → scrape_mit_profile env url = emptyProfile)
    ∧ (fetchR env url = none → scrape_stanford_profile env url = emptyProfile)
    ∧ (fetchR env url = none → scrape_stanford_department env url = [])
    ∧ (fetchR env url = none → scrape_northwestern_department env url = [])
    ∧ (fetchR env url = none → scrape_berkeley_department env url = [])
    ∧ (fetchR env url = none → scrape_caltech_department env url = [])
    ∧ (fetchR env (targetUrl "mit_dmse") = none → scrape_mit_dmse env = [])
    ∧ (fetchR env (targetUrl "harvard_chemistry") = none →
        scrape_harvard_chemistry env = [])
    ∧ (fetchR env (targetUrl "harvard_seas") = none → scrape_harvard_seas env = [])
    ∧ (fetchR env (targetUrl "yale_chemistry") = none →
        scrape_yale_chemistry env = [])
    ∧ (fetchR env (targetUrl "princeton_chemistry") = none →
        scrape_princeton_chemistry env = [])
    ∧ (fetchR env (targetUrl "uchicago_chemistry") = none →
        scrape_uchicago_chemistry env = [])
    ∧ (fetchR env (targetUrl "stanford_doerr") = none →
        scrape_stanford_doerr env = []) := by
  refine ⟨rfl, ?_, ?_, ?_, ?_, ?_, ?_, ?_, ?_, ?_, ?_, ?_, ?_, ?_, ?_, ?_⟩
  · intro h
    simp [polite_request, h]
  · intro h; simp [scrape_generic_profile, h]
  · intro h; simp [scrape_mit_profile, h]
  · intro h; simp [scrape_stanford_profile, h]
  · intro h; simp [scrape_stanford_department, h]
  · intro h; simp [scrape_northwestern_department, h]
  · intro h; simp [scrape_berkeley_department, h]
  · intro h; simp [scrape_caltech_department, h]
  · intro h; simp [scrape_mit_dmse, h]
  · intro h; simp [scrape_harvard_chemistry, h]
  · intro h; simp [scrape_harvard_seas, h]
  · intro h; simp [scrape_yale_chemistry, h]
  · intro h; simp [scrape_princeton_chemistry, h]
  · intro h; simp [scrape_uchicago_chemistry, h]
  · intro h
    have h0 : fetchR env (doerr_page_url 0) = none := by
      unfold doerr_page_url
      simpa using h
    unfold scrape_stanford_doerr
    have hloop : doerrLoop env 11 0 [] = [] := by
      unfold doerrLoop
      rw [h0]
    rw [hloop]
    rfl

/-- An environment whose transport always raises. -/
def envFail : Env :=
  { transport := fun _ => FetchOutcome.exn
    extract_email := fun _ => ""
    extract_phone := fun _ => ""
    extract_lab_website := fun _ _ => ""
    extract_google_scholar := fun _ => ""
    extract_publications := fun _ => []
    extract_assistant_email := fun _ => ""
    extract_research_interests := fun _ _ => []
    find_stanford_profiles_link := fun _ => none
    parse_stanford_department := fun _ _ => []
    parse_doerr_page := fun _ _ => []
    doerr_has_next := fun _ => false
    parse_mit_dmse := fun _ => []
    parse_harvard_chemistry := fun _ => []
    parse_harvard_seas := fun _ => []
    parse_yale_chemistry := fun _ => []
    parse_princeton_chemistry := fun _ => []
    parse_uchicago_chemistry := fun _ => []
    parse_northwestern_department := fun _ _ => []
    parse_berkeley_department := fun _ _ => []
    parse_caltech_department := fun _ _ => [] }

/-- Witness for C7: with an always-raising transport, the generic enricher
yields the all-empty enrichment dict instead of crashing. -/
theorem C7_transport_failures_nonfatal_witness :
    scrape_generic_profile envFail "https://example.org/p" = emptyProfile :=
  (C7_transport_failures_nonfatal envFail "https://example.org/p"
    ⟨500, "", 0⟩).2.2.1 rfl

/-! ## `FacultyCrawler.save_csv` -/

/-- The `preferred_order` column list of `save_csv`. -/
def preferred_order : List String :=
  ["name", "title", "department_source", "department_sources",
   "email", "phone", "assistant_email",
   "profile_url", "lab_website", "google_scholar",
   "top_publications", "research_interests"]

/-- The per-field list-to-string conversion of `save_csv`:
`top_publications` joined with " | ", `department_sources` and
`research_interests` joined with ", "; string values (and all other keys)
unchanged. -/
def flattenVal (k : String) (v : Val) : Val :=
  if k = "top_publications" then
    match v with
    | .lst l => .str (pyJoin " | " l)
    | v => v
  else if k = "department_sources" then
    match v with
    | .lst l => .str (pyJoin ", " l)
    | v => v
  else if k = "research_interests" then
    match v with
    | .lst l => .str (pyJoin ", " l)
    | v => v
  else v

/-- The `flat = faculty.copy()` plus in-place list joins of `save_csv`. -/
def flattenRecord (r : Record) : Record :=
  r.map (fun kv => (kv.1, flattenVal kv.1 kv.2))

/-- `all_keys`: every key occurring in some flattened record (the source
uses a Python set; only membership is relevant downstream). -/
def allKeys (rows : List Record) : List String :=
  firstDedup (rows.foldl (fun acc r => acc ++ r.map Prod.fst) [])

/-- The emitted CSV column list: the preferred columns that occur in some
record, in preferred order, followed by the remaining keys. -/
def csvColumns (rows : List Record) : List String :=
  preferred_order.filter (fun c => c ∈ allKeys rows)
  ++ (allKeys rows).filter
      (fun c => c ∉ preferred_order.filter (fun c' => c' ∈ allKeys rows))

/-- One CSV cell: the string under the column key, `''` for a missing key
(`DictWriter`'s restval); a residual list value (impossible for the three
flattened keys) is rendered by joining, standing in for Python `str()`. -/
def cellString : Option Val → String
  | some (.str s) => s
  | some (.lst l) => pyJoin ", " l
  | none => ""

/-- The data rows of the emitted CSV, one per record, cells in column
order. -/
def csvRows (rows : List Record) : List (List String) :=
  rows.map (fun r => (csvColumns rows).map (fun c => cellString (getVal r c)))

/-- The written CSV file: byte-order mark (the source opens the file with
encoding `utf-8-sig`), header line, data rows. -/
structure CsvFile where
  bom : Bool
  header : List String
  rows : List (List String)
deriving DecidableEq

/-- `FacultyCrawler.save_csv`: writes nothing for an empty record set,
else flattens every record and emits the BOM, the computed column header
and one row per record. -/
def save_csv (data : List Record) : Option CsvFile :=
  if data.isEmpty then none
  else
    some { bom := true
           header := csvColumns (data.map flattenRecord)
           rows := csvRows (data.map flattenRecord) }

theorem getVal_flattenRecord (r : Record) (k : String) :
    getVal (flattenRecord r) k = (getVal r k).map (flattenVal k) := by
  induction r with
  | nil => rfl
  | cons kv rest ih =>
    by_cases h : kv.1 = k
    · subst h
      simp [flattenRecord, getVal, List.find?]
    · have hmap : flattenRecord (kv :: rest)
          = (kv.1, flattenVal kv.1 kv.2) :: flattenRecord rest := rfl
      rw [hmap]
      unfold getVal at ih ⊢
      rw [List.find?_cons_of_neg _ (by simp [h]),
        List.find?_cons_of_neg _ (by simp [h])]
      exact ih

/-- Claim C8: for a non-empty record set, `save_csv` writes a file with a
byte-order mark whose header starts with exactly the preferred columns
that occur in some record, in the fixed preferred order, followed by
precisely the non-preferred keys; and flattening joins `top_publications`
with " | " and `department_sources`/`research_interests` with ", ". -/
theorem C8_csv_layout (data : List Record) (hne : data ≠ []) :
    save_csv data = some
      { bom := true
        header := csvColumns (data.map flattenRecord)
        rows := csvRows (data.map flattenRecord) }
    ∧ (csvColumns (data.map flattenRecord)).take
        (preferred_order.filter
          (fun c => c ∈ allKeys (data.map flattenRecord))).length
      = preferred_order.filter (fun c => c ∈ allKeys (data.map flattenRecord))
    ∧ (∀ c, c ∈ (csvColumns (data.map flattenRecord)).drop
          (preferred_order.filter
            (fun c => c ∈ allKeys (data.map flattenRecord))).length
        ↔ (c ∈ allKeys (data.map flattenRecord) ∧ c ∉ preferred_order))
    ∧ (∀ r k, getVal (flattenRecord r) k = (getVal r k).map (flattenVal k))
    ∧ (∀ l, flattenVal "top_publications" (Val.lst l) = Val.str (pyJoin " | " l))
    ∧ (∀ l, flattenVal "department_sources" (Val.lst l) = Val.str (pyJoin ", " l))
    ∧ (∀ l, flattenVal "research_interests" (Val.lst l) = Val.str (pyJoin ", " l)) := by
  refine ⟨?_, ?_, ?_, getVal_flattenRecord, fun l => rfl, fun l => rfl, fun l => rfl⟩
  · unfold save_csv
    rw [if_neg (by simpa using hne)]
  · unfold csvColumns
    exact List.take_left _ _
  · intro c
    unfold csvColumns
    rw [List.drop_left]
    simp only [List.mem_filter, decide_eq_true_eq]
    constructor
    · rintro ⟨hk, hnp⟩
      exact ⟨hk, fun hp => hnp ⟨hp, hk⟩⟩
    · rintro ⟨hk, hnp⟩
      exact ⟨hk, fun hmem => hnp hmem.1⟩

/-- The spec's CSV example record: three preferred fields and one
unrecognized field. -/
def recCustom : Record :=
  [("custom_extra", Val.str "x"), ("name", Val.str "N"),
   ("email", Val.str "e"), ("profile_url", Val.str "p")]

/-- Witness for C8 at the spec's example: the header places `name`,
`email`, `profile_url` (preferred order) before `custom_extra`, even
though `custom_extra` was inserted first. -/
theorem C8_csv_layout_witness :
    save_csv [recCustom] = some
      { bom := true
        header := ["name", "email", "profile_url", "custom_extra"]
        rows := [["N", "e", "p", "x"]] } := by
  have h := (C8_csv_layout [recCustom] (by decide)).1
  rw [h]
  decide
